import Mathlib

/-
Verification of the Bedrock `SQLite` write coordinator (`src/sqlitecluster/SQLite.h`).
The repository sources contain only the class declaration (`SQLite.h`); the member
function bodies (`SQLite.cpp`) are not present under `src/`, so the behavior of each
operation is modelled from the specification (`spec.md`, sections 3 and 4) and from the
doc comments in `SQLite.h`, with machine state made explicit and SHA-1 kept as an
abstract string function parameter `sha1`.
-/

namespace Bedrock

/-- Modelled from the spec: a journal row `(id, query, hash)` (spec section 3,
"Journal row"); `SQLite.cpp` is absent from the sources, only `SQLite.h` declares
the class. -/
structure Row where
  id : Nat
  query : String
  hash : String
deriving DecidableEq, Repr

/-- Modelled from the spec: the per-facade (per-thread) transaction context of
`SQLite.h` (fields `_insideTransaction`, `_uncommittedQuery`, `_uncommittedHash`,
`_mutexLocked`, `_journalName`, public member `whitelist`), plus the facade's
uncommitted journal insert (`pendingRow`), which the engine keeps invisible to other
connections until `COMMIT`. -/
structure Facade where
  shard : String
  insideTransaction : Bool
  mutexLocked : Bool
  uncommittedQuery : String
  uncommittedHash : String
  pendingRow : Option Row
  whitelist : Option (List (String × List String))
deriving DecidableEq

/-- Modelled from the spec: the process-wide state shared by all facades
(`_commitCount`, `_lastCommittedHash`, `_committedTransactionIDs`,
`_inFlightTransactions`, the commit lock `g_commitLock`, and the journal shards),
together with a ghost `drainHistory` recording the successive return values of
`getCommittedTransactions` for the exactly-once property. -/
structure DBState where
  facades : Nat → Facade
  commitCount : Nat
  lastCommittedHash : String
  committedIDs : List Nat
  inFlight : List Row
  journal : List (String × Row)
  lockHolder : Option Nat
  drainHistory : List (List Row)

/-- The logical journal: the rows of all shards in commit order. -/
def jrows (s : DBState) : List Row := s.journal.map Prod.snd

/-- Replace facade `i`. -/
def DBState.updFacade (s : DBState) (i : Nat) (f : Facade) : DBState :=
  { s with facades := Function.update s.facades i f }

/-- `write` appends each statement with a trailing semicolon if absent
(spec section 4.D, `write`). -/
def semicolonTerminate (q : String) : String :=
  if q.data.getLast? = some ';' then q else q ++ ";"

/-- The hash stored in the last journal row, or `h0` for an empty journal. -/
def lastHashD (h0 : String) : List Row → String
  | [] => h0
  | r :: rest => lastHashD r.hash rest

/-- The hash stored in the last journal row, or the empty string. -/
def lastHashOf (rows : List Row) : String := lastHashD "" rows

/-- The rows form a SHA-1 chain starting from `h0`:
each row's hash is `sha1 (previous hash ++ its query)`. -/
def HashChainFrom (sha1 : String → String) : String → List Row → Prop
  | _, [] => True
  | h0, r :: rest => r.hash = sha1 (h0 ++ r.query) ∧ HashChainFrom sha1 r.hash rest

/-- Recompute the running hashes from a list of queries (the journal dump),
starting from `h0`. -/
def recomputeHashes (sha1 : String → String) (h0 : String) : List String → List String
  | [] => []
  | q :: qs =>
    let h := sha1 (h0 ++ q)
    h :: recomputeHashes sha1 h qs

/-- The maximum commit id over a list of journal rows (0 for an empty journal). -/
def maxJournalId (rows : List Row) : Nat := (rows.map Row.id).foldr max 0

/-! ### Authorizer (spec section 4.C, `_sqliteAuthorizerCallback` / `_authorize`) -/

/-- Modelled from the spec: the classes of actions submitted to the authorizer
callback (`_authorize` in `SQLite.h` has no body under `src/`). -/
inductive SQLAction where
  | readCol (table column : String)
  | insertRow (table : String)
  | updateCol (table column : String)
  | deleteRow (table : String)
  | attachDB
  | pragmaStmt
  | sideEffectFunction (name : String)
deriving DecidableEq

/-- The authorizer's verdict. -/
inductive AuthResult where
  | allow
  | deny
deriving DecidableEq

/-- Look up the permitted columns for a table in the whitelist. -/
def lookupTable (wl : List (String × List String)) (t : String) : Option (List String) :=
  (wl.find? (fun p => p.1 = t)).map Prod.snd

/-- The column is listed for its table in the whitelist. -/
def listedFor (wl : List (String × List String)) (t c : String) : Prop :=
  ∃ cols, lookupTable wl t = some cols ∧ c ∈ cols

instance (wl : List (String × List String)) (t c : String) : Decidable (listedFor wl t c) := by
  unfold listedFor
  cases lookupTable wl t with
  | none => exact isFalse (by simp)
  | some cols => exact decidable_of_iff (c ∈ cols) (by simp)

/-- The action writes or has side effects (anything but a plain column read). -/
def IsWriteAction : SQLAction → Prop
  | .readCol _ _ => False
  | _ => True

/-- Modelled from the spec: the authorizer policy (`SQLite.h` lines 112-116 and
244-248; spec section 4.C). No whitelist: allow everything. Whitelist set: allow
reads of listed (table, column) pairs, deny everything else. -/
def authorize (wl : Option (List (String × List String))) (a : SQLAction) : AuthResult :=
  match wl with
  | none => .allow
  | some m =>
    match a with
    | .readCol t c => if listedFor m t c then .allow else .deny
    | _ => .deny

/-! ### Operations (spec section 4.D; declarations in `SQLite.h` lines 40-110) -/

/-- Modelled from the spec: `SQLite::beginTransaction` (declared `SQLite.h` line 40;
body absent). Fails if already inside a transaction; otherwise enters a transaction
with cleared uncommitted fields. -/
def beginTransaction (i : Nat) (s : DBState) : Bool × DBState :=
  let f := s.facades i
  if f.insideTransaction = true then (false, s)
  else
    (true, s.updFacade i { f with insideTransaction := true, uncommittedQuery := "",
                                  uncommittedHash := "" })

/-- Modelled from the spec: `SQLite::write` (declared `SQLite.h` line 55; body
absent). Requires being inside a transaction, before `prepare` ("no additional
writes are allowed until the next transaction has begun"), and no whitelist (every
write statement performs a non-read action, which the authorizer denies whenever a
whitelist is installed). On success the statement is appended, semicolon-terminated,
to the uncommitted query. -/
def write (i : Nat) (q : String) (s : DBState) : Bool × DBState :=
  let f := s.facades i
  if f.insideTransaction = true ∧ f.mutexLocked = false ∧ f.whitelist = none then
    (true, s.updFacade i { f with uncommittedQuery := f.uncommittedQuery ++ semicolonTerminate q })
  else (false, s)

/-- Modelled from the spec: `SQLite::prepare` (declared `SQLite.h` line 59; body
absent). Under the commit lock, claims commit id `commitCount + 1`, computes the
uncommitted hash `sha1 (committedHash ++ uncommittedQuery)`, inserts the journal row
into the facade's own shard (still engine-uncommitted, held as `pendingRow`), and
registers the entry in the in-flight map. A `prepare` that would block on the commit
lock is modelled as a failing no-op step. -/
def prepare (sha1 : String → String) (i : Nat) (s : DBState) : Bool × DBState :=
  let f := s.facades i
  if f.insideTransaction = true ∧ f.mutexLocked = false ∧ s.lockHolder = none then
    let h := sha1 (s.lastCommittedHash ++ f.uncommittedQuery)
    let row : Row := ⟨s.commitCount + 1, f.uncommittedQuery, h⟩
    (true,
      { s.updFacade i { f with mutexLocked := true, uncommittedHash := h,
                               pendingRow := some row } with
        lockHolder := some i
        inFlight := s.inFlight ++ [row] })
  else (false, s)

/-- Modelled from the spec: `SQLite::commit` (declared `SQLite.h` line 62; body
absent). `engineResult` is the storage engine's result code for `COMMIT` (0 is
`SQLITE_OK`; nonzero is busy/conflict or an I/O error). A nonzero engine code is
returned unchanged with no state change at all — in-flight entry, lock, and
transaction state all retained. On success the journal row becomes durable, the
commit counter advances, the new committed hash is published, the id enters the
committed-transactions set, and the lock is released. Calling `commit` without a
successful `prepare` is a misuse (code 21) and changes nothing. -/
def commit (i : Nat) (engineResult : Nat) (s : DBState) : Nat × DBState :=
  let f := s.facades i
  if f.insideTransaction = true ∧ f.mutexLocked = true then
    if engineResult = 0 then
      match f.pendingRow with
      | some row =>
        (0,
          { s.updFacade i { f with insideTransaction := false, mutexLocked := false,
                                   uncommittedQuery := "", uncommittedHash := "",
                                   pendingRow := none } with
            commitCount := s.commitCount + 1
            lastCommittedHash := f.uncommittedHash
            committedIDs := s.committedIDs ++ [row.id]
            journal := s.journal ++ [(f.shard, row)]
            lockHolder := none })
      | none => (21, s)
    else (engineResult, s)
  else (21, s)

/-- Modelled from the spec: `SQLite::rollback` (declared `SQLite.h` line 65; body
absent). The engine's `ROLLBACK` discards the uncommitted journal insert. If this
facade holds the commit lock, the in-flight entry at the tentative commit id
(`commitCount + 1`) is removed and the lock is released. The transaction context is
cleared unconditionally; `rollback` always succeeds. -/
def rollback (i : Nat) (s : DBState) : DBState :=
  let f := s.facades i
  let s1 :=
    if f.mutexLocked = true then
      { s with inFlight := s.inFlight.filter (fun r => r.id ≠ s.commitCount + 1)
               lockHolder := none }
    else s
  s1.updFacade i { f with insideTransaction := false, mutexLocked := false,
                          uncommittedQuery := "", uncommittedHash := "",
                          pendingRow := none }

/-- Modelled from the spec: `SQLite::getCommittedTransactions` (declared `SQLite.h`
lines 107-110; body absent). Under the commit lock, atomically removes and returns
every in-flight entry whose commit id is in the committed-transactions set, and
removes those ids from the set. A call that would block on the lock is modelled as a
step returning nothing. -/
def getCommittedTransactions (s : DBState) : List Row × DBState :=
  if s.lockHolder = none then
    let out := s.inFlight.filter (fun r => decide (r.id ∈ s.committedIDs))
    (out,
      { s with inFlight := s.inFlight.filter (fun r => decide (r.id ∉ s.committedIDs))
               committedIDs := s.committedIDs.filter (fun c => decide (c ∉ out.map Row.id))
               drainHistory := s.drainHistory ++ [out] })
  else ([], s)

/-- `SQLite::getCommitCount` (`SQLite.h` line 79): returns the value of the
process-global atomic `_commitCount`. -/
def getCommitCount (s : DBState) : Nat := s.commitCount

/-- `SQLite::getCommittedHash` (`SQLite.h` line 82): returns `_lastCommittedHash`. -/
def getCommittedHash (s : DBState) : String := s.lastCommittedHash

/-- Modelled from the spec: `SQLite::_getCommitCount` (declared `SQLite.h` lines
219-221; body absent): reads the maximum commit id directly from the database over
all journal shards, through facade `i`'s connection — which also sees the facade's
own uncommitted journal insert, whence the requirement that it only be called
outside of any transaction. -/
def _getCommitCount (i : Nat) (s : DBState) : Nat :=
  maxJournalId (jrows s ++ ((s.facades i).pendingRow).toList)

/-! ### Journal table names and the union query builder
(`SQLite.h` lines 16-26, 189-190, 223-242) -/

/-- Left-pad a string with `'0'` up to width `w` (the `%04d`-style formatting the
header's constructor comment describes: "at least four digits, leading 0s"). -/
def zeroPad (w : Nat) (t : String) : String :=
  String.mk (List.replicate (w - t.length) '0') ++ t

/-- Modelled from the spec: `SQLite::_getJournalTableName` (declared `SQLite.h`
line 190; body absent). Name is `journal` for a negative id (the `-1` convention of
the constructor comment), else `journal` followed by the id zero-padded to at least
four digits. -/
def _getJournalTableName (journalTableID : Int) : String :=
  if journalTableID < 0 then "journal"
  else "journal" ++ zeroPad 4 (Nat.repr journalTableID.toNat)

/-- An accumulator loop joining a list of strings with a separator, the way the
C++ compose-list helper iterates (first element bare, each further element preceded
by the separator). -/
def joinLoop (sep : String) : List String → String
  | [] => ""
  | f :: fs => fs.foldl (fun acc x => acc ++ sep ++ x) f

/-- The interleaving the spec describes (section 4.A): `f_0 S f_1 S ... f_m`,
with `S` between consecutive fragments. -/
def interleave (S : String) : List String → String
  | [] => ""
  | [f] => f
  | f :: fs => f ++ S ++ interleave S fs

/-- Modelled from the spec: `SQLite::_getJournalQuery` (declared `SQLite.h` lines
223-242; body absent). For each journal table name, joins `queryParts` with that
name (blank-separated) as separator, appending the name at the end iff `append`;
the per-table subqueries are then joined with `UNION`. -/
def _getJournalQuery (allJournalNames : List String) (queryParts : List String)
    (append : Bool) : String :=
  joinLoop " UNION "
    (allJournalNames.map (fun name =>
      joinLoop (" " ++ name ++ " ") queryParts ++ (if append then " " ++ name else "")))

/-! ### Process steps and reachability -/

/-- One atomic step of some thread against the shared state. -/
inductive Op where
  | beginTx (i : Nat)
  | writeQ (i : Nat) (q : String)
  | prepareTx (i : Nat)
  | commitTx (i : Nat) (engineResult : Nat)
  | rollbackTx (i : Nat)
  | drain
deriving DecidableEq

/-- Apply one operation to the shared state (discarding the return value). -/
def step (sha1 : String → String) (op : Op) (s : DBState) : DBState :=
  match op with
  | .beginTx i => (beginTransaction i s).2
  | .writeQ i q => (write i q s).2
  | .prepareTx i => (prepare sha1 i s).2
  | .commitTx i r => (commit i r s).2
  | .rollbackTx i => rollback i s
  | .drain => (getCommittedTransactions s).2

/-- Run a sequence of operations. -/
def run (sha1 : String → String) (ops : List Op) (s : DBState) : DBState :=
  ops.foldl (fun s op => step sha1 op s) s

/-- Modelled from the spec: process start (spec section 3, "Commit-id", and
section 4.B). The commit counter is loaded as the maximum commit id across all
journal shards, the committed hash as the hash of the row with the maximum id
(empty for an empty journal); the in-flight registry and committed-id set start
empty, no facade is in a transaction, and the commit lock is free. -/
def initState (shards : Nat → String) (j0 : List (String × Row)) : DBState where
  facades := fun i =>
    { shard := shards i, insideTransaction := false, mutexLocked := false,
      uncommittedQuery := "", uncommittedHash := "", pendingRow := none,
      whitelist := none }
  commitCount := maxJournalId (j0.map Prod.snd)
  lastCommittedHash := lastHashOf (j0.map Prod.snd)
  committedIDs := []
  inFlight := []
  journal := j0
  lockHolder := none
  drainHistory := []

/-- A well-formed on-disk journal: ids are `1, 2, ..., n` in order and the hashes
chain from the empty string. -/
def WFJournal (sha1 : String → String) (rows : List Row) : Prop :=
  rows.map Row.id = List.range' 1 rows.length ∧ HashChainFrom sha1 "" rows

/-- States reachable from process start over an existing journal `j0`. -/
def Reachable (sha1 : String → String) (shards : Nat → String) (j0 : List (String × Row))
    (s : DBState) : Prop :=
  ∃ ops, s = run sha1 ops (initState shards j0)

/-! ### The global invariant -/

/-- The in-flight entries that have committed but have not yet been drained. -/
def committedPending (s : DBState) : List Row :=
  s.inFlight.filter (fun r => decide (r.id ∈ s.committedIDs))

/-- The invariant maintained by every operation, relative to the length `n0` of the
journal found at process start: commit ids are the contiguous range `1..commitCount`
in journal order; journal hashes chain from the empty string; the published
committed hash is the last journal hash; committed-but-undrained ids point into the
in-flight registry; the registry is sorted by id; the drains performed so far plus
the committed still-pending entries are exactly this process's commits in order; the
commit lock marks exactly one prepared facade, whose pending row carries the
tentative id `commitCount + 1` and the uncommitted query/hash; and with the lock
free every in-flight entry is committed. -/
structure Inv (sha1 : String → String) (n0 : Nat) (s : DBState) : Prop where
  ids : (jrows s).map Row.id = List.range' 1 s.commitCount
  chain : HashChainFrom sha1 "" (jrows s)
  lastH : s.lastCommittedHash = lastHashOf (jrows s)
  committedLe : ∀ c ∈ s.committedIDs, c ≤ s.commitCount
  committedIn : ∀ c ∈ s.committedIDs, ∃ r ∈ s.inFlight, r.id = c
  sortedIF : s.inFlight.Pairwise (fun a b => a.id < b.id)
  drained : s.drainHistory.flatten ++ committedPending s = (jrows s).drop n0
  baseLe : n0 ≤ s.commitCount
  lockFacade : ∀ i, (s.facades i).mutexLocked = true ↔ s.lockHolder = some i
  lockedState : ∀ i, s.lockHolder = some i →
    (s.facades i).insideTransaction = true ∧
    ∃ row, (s.facades i).pendingRow = some row ∧
      row.id = s.commitCount + 1 ∧
      row.query = (s.facades i).uncommittedQuery ∧
      row.hash = (s.facades i).uncommittedHash ∧
      row.hash = sha1 (s.lastCommittedHash ++ row.query) ∧
      ∃ pre, s.inFlight = pre ++ [row] ∧ ∀ r ∈ pre, r.id ∈ s.committedIDs
  unlockedPending : ∀ i, (s.facades i).mutexLocked = false → (s.facades i).pendingRow = none
  freeCommitted : s.lockHolder = none → ∀ r ∈ s.inFlight, r.id ∈ s.committedIDs

/-! ### Helper lemmas -/

theorem foldr_max_le {l : List Nat} {n : Nat} (h : ∀ x ∈ l, x ≤ n) : l.foldr max 0 ≤ n := by
  induction l with
  | nil => simp
  | cons a t ih =>
    simp only [List.foldr_cons]
    exact max_le (h a (by simp)) (ih fun x hx => h x (by simp [hx]))

theorem le_foldr_max {l : List Nat} {x : Nat} (h : x ∈ l) : x ≤ l.foldr max 0 := by
  induction l with
  | nil => simp at h
  | cons a t ih =>
    simp only [List.foldr_cons]
    rcases List.mem_cons.mp h with rfl | hx
    · exact le_max_left _ _
    · exact le_trans (ih hx) (le_max_right _ _)

theorem foldr_max_range' (n : Nat) : (List.range' 1 n).foldr max 0 = n := by
  cases n with
  | zero => simp
  | succ m =>
    apply le_antisymm
    · exact foldr_max_le fun x hx => by
        have := List.mem_range'_1.mp hx
        omega
    · exact le_foldr_max (List.mem_range'_1.mpr (by omega))

theorem lastHashD_cons (h0 : String) (r : Row) (l : List Row) :
    lastHashD h0 (r :: l) = lastHashD r.hash l := rfl

theorem lastHashD_append_one (h0 : String) (l : List Row) (r : Row) :
    lastHashD h0 (l ++ [r]) = r.hash := by
  induction l generalizing h0 with
  | nil => rfl
  | cons x xs ih => simpa [lastHashD_cons] using ih x.hash

theorem hashChain_append_one {sha1 : String → String} {r : Row} :
    ∀ {l : List Row} {h0 : String}, HashChainFrom sha1 h0 l →
      r.hash = sha1 (lastHashD h0 l ++ r.query) → HashChainFrom sha1 h0 (l ++ [r]) := by
  intro l
  induction l with
  | nil => intro h0 _ hr; exact ⟨by simpa [lastHashD] using hr, trivial⟩
  | cons x xs ih =>
    intro h0 hc hr
    refine ⟨hc.1, ih hc.2 ?_⟩
    simpa [lastHashD_cons] using hr

theorem hashChain_decomp {sha1 : String → String} {r : Row} :
    ∀ {pre : List Row} {h0 : String} {l rest : List Row}, HashChainFrom sha1 h0 l →
      l = pre ++ r :: rest → r.hash = sha1 (lastHashD h0 pre ++ r.query) := by
  intro pre
  induction pre with
  | nil =>
    intro h0 l rest hc hl
    subst hl
    simpa [lastHashD] using hc.1
  | cons x xs ih =>
    intro h0 l rest hc hl
    subst hl
    have := @ih x.hash (xs ++ r :: rest) rest hc.2 rfl
    simpa [lastHashD_cons] using this

theorem recompute_eq_of_chain {sha1 : String → String} :
    ∀ {l : List Row} {h0 : String}, HashChainFrom sha1 h0 l →
      recomputeHashes sha1 h0 (l.map Row.query) = l.map Row.hash := by
  intro l
  induction l with
  | nil => intro h0 _; simp [recomputeHashes]
  | cons x xs ih =>
    intro h0 hc
    simp only [List.map_cons, recomputeHashes]
    rw [← hc.1, ih hc.2]

/-! ### Preservation of the invariant -/

theorem inv_beginTransaction {sha1 : String → String} {n0 : Nat} {s : DBState}
    (hs : Inv sha1 n0 s) (i : Nat) : Inv sha1 n0 (beginTransaction i s).2 := by
  by_cases hin : (s.facades i).insideTransaction = true
  · simpa [beginTransaction, hin] using hs
  · have hni : s.lockHolder ≠ some i := fun h => hin (hs.lockedState i h).1
    simp only [beginTransaction, if_neg hin]
    refine ⟨hs.ids, hs.chain, hs.lastH, hs.committedLe, hs.committedIn, hs.sortedIF,
      hs.drained, hs.baseLe, ?_, ?_, ?_, hs.freeCommitted⟩
    · intro j
      rcases eq_or_ne j i with rfl | hj
      · simpa [DBState.updFacade] using hs.lockFacade j
      · simpa [DBState.updFacade, Function.update_noteq hj] using hs.lockFacade j
    · intro j hj'
      rcases eq_or_ne j i with rfl | hj
      · exact absurd hj' hni
      · simpa [DBState.updFacade, Function.update_noteq hj] using hs.lockedState j hj'
    · intro j hm
      rcases eq_or_ne j i with rfl | hj
      · simp only [DBState.updFacade, Function.update_same] at hm ⊢
        exact hs.unlockedPending j hm
      · simp only [DBState.updFacade, Function.update_noteq hj] at hm ⊢
        exact hs.unlockedPending j hm

theorem inv_write {sha1 : String → String} {n0 : Nat} {s : DBState}
    (hs : Inv sha1 n0 s) (i : Nat) (q : String) : Inv sha1 n0 (write i q s).2 := by
  by_cases hg : (s.facades i).insideTransaction = true ∧ (s.facades i).mutexLocked = false ∧
      (s.facades i).whitelist = none
  · have hni : s.lockHolder ≠ some i := fun h => by
      have := (hs.lockFacade i).2 h
      rw [this] at hg
      exact absurd hg.2.1 (by simp)
    simp only [write, if_pos hg]
    refine ⟨hs.ids, hs.chain, hs.lastH, hs.committedLe, hs.committedIn, hs.sortedIF,
      hs.drained, hs.baseLe, ?_, ?_, ?_, hs.freeCommitted⟩
    · intro j
      rcases eq_or_ne j i with rfl | hj
      · simpa [DBState.updFacade] using hs.lockFacade j
      · simpa [DBState.updFacade, Function.update_noteq hj] using hs.lockFacade j
    · intro j hj'
      rcases eq_or_ne j i with rfl | hj
      · exact absurd hj' hni
      · simpa [DBState.updFacade, Function.update_noteq hj] using hs.lockedState j hj'
    · intro j hm
      rcases eq_or_ne j i with rfl | hj
      · simp only [DBState.updFacade, Function.update_same] at hm ⊢
        exact hs.unlockedPending j hm
      · simp only [DBState.updFacade, Function.update_noteq hj] at hm ⊢
        exact hs.unlockedPending j hm
  · simpa [write, hg] using hs

theorem inv_prepare {sha1 : String → String} {n0 : Nat} {s : DBState}
    (hs : Inv sha1 n0 s) (i : Nat) : Inv sha1 n0 (prepare sha1 i s).2 := by
  by_cases hg : (s.facades i).insideTransaction = true ∧ (s.facades i).mutexLocked = false ∧
      s.lockHolder = none
  · have hmf : ∀ j, (s.facades j).mutexLocked = false := by
      intro j
      have := mt (hs.lockFacade j).1 (by simp [hg.2.2])
      simpa using this
    have hfen : ∀ r ∈ s.inFlight, r.id ∈ s.committedIDs := hs.freeCommitted hg.2.2
    have hflt : ∀ r ∈ s.inFlight, r.id < s.commitCount + 1 := fun r hr =>
      Nat.lt_succ_of_le (hs.committedLe _ (hfen r hr))
    simp only [prepare, if_pos hg]
    refine ⟨hs.ids, hs.chain, hs.lastH, hs.committedLe, ?_, ?_, ?_, hs.baseLe, ?_, ?_, ?_, ?_⟩
    · intro c hc
      obtain ⟨r, hr, hrc⟩ := hs.committedIn c hc
      exact ⟨r, List.mem_append_left _ hr, hrc⟩
    · refine List.pairwise_append.mpr ⟨hs.sortedIF, by simp, ?_⟩
      intro a ha b hb
      simp only [List.mem_singleton] at hb
      subst hb
      exact hflt a ha
    · show s.drainHistory.flatten ++
        List.filter _ (s.inFlight ++ [_]) = (jrows s).drop n0
      rw [List.filter_append]
      have hnotin : (s.commitCount + 1) ∉ s.committedIDs := fun hmem =>
        absurd (hs.committedLe _ hmem) (by omega)
      simp only [List.filter_cons, List.filter_nil, decide_eq_true_eq]
      rw [if_neg (by simpa using hnotin)]
      simpa using hs.drained
    · intro j
      rcases eq_or_ne j i with rfl | hj
      · simp [DBState.updFacade]
      · simp only [DBState.updFacade, Function.update_noteq hj]
        constructor
        · intro hm
          exact absurd hm (by simp [hmf j])
        · intro hl
          exact absurd hl (by simp [Ne.symm hj])
    · intro j hl
      have hji : i = j := by simpa using hl
      subst hji
      refine ⟨by simpa [DBState.updFacade] using hg.1,
        ⟨s.commitCount + 1, (s.facades i).uncommittedQuery,
          sha1 (s.lastCommittedHash ++ (s.facades i).uncommittedQuery)⟩,
        by simp [DBState.updFacade], rfl, by simp [DBState.updFacade],
        by simp [DBState.updFacade], rfl, s.inFlight, rfl, hfen⟩
    · intro j hm
      rcases eq_or_ne j i with rfl | hj
      · simp [DBState.updFacade] at hm
      · simp only [DBState.updFacade, Function.update_noteq hj] at hm ⊢
        exact hs.unlockedPending j hm
    · intro h
      exact absurd h (by simp)
  · simpa [prepare, hg] using hs

theorem inv_commit {sha1 : String → String} {n0 : Nat} {s : DBState}
    (hs : Inv sha1 n0 s) (i : Nat) (engineResult : Nat) :
    Inv sha1 n0 (commit i engineResult s).2 := by
  by_cases hg : (s.facades i).insideTransaction = true ∧ (s.facades i).mutexLocked = true
  · by_cases hr : engineResult = 0
    · have hl : s.lockHolder = some i := (hs.lockFacade i).1 hg.2
      obtain ⟨hin, row, hpend, hid, hquery, hhash, hsha, pre, hif, hprec⟩ := hs.lockedState i hl
      have hjlen : (jrows s).length = s.commitCount := by
        have := congrArg List.length hs.ids
        simpa using this
      have hnotin : s.commitCount + 1 ∉ s.committedIDs := fun h =>
        absurd (hs.committedLe _ h) (by omega)
      have hfilter_old :
          List.filter (fun r => decide (r.id ∈ s.committedIDs)) s.inFlight = pre := by
        rw [hif, List.filter_append]
        have h1 : List.filter (fun r => decide (r.id ∈ s.committedIDs)) pre = pre :=
          List.filter_eq_self.mpr (fun a ha => by simpa using hprec a ha)
        have h2 : List.filter (fun r => decide (r.id ∈ s.committedIDs)) [row] = [] := by
          simp [List.filter_cons, hid, hnotin]
        rw [h1, h2, List.append_nil]
      have hOld : s.drainHistory.flatten ++ pre = (jrows s).drop n0 := by
        have := hs.drained
        rw [committedPending, hfilter_old] at this
        exact this
      have hfilter_new :
          List.filter (fun r => decide (r.id ∈ s.committedIDs ++ [row.id])) s.inFlight =
            pre ++ [row] := by
        rw [hif, List.filter_append]
        have h1 : List.filter (fun r => decide (r.id ∈ s.committedIDs ++ [row.id])) pre = pre :=
          List.filter_eq_self.mpr (fun a ha => by
            simp only [decide_eq_true_eq, List.mem_append]
            exact Or.inl (hprec a ha))
        have h2 : List.filter (fun r => decide (r.id ∈ s.committedIDs ++ [row.id])) [row] =
            [row] := by
          simp [List.filter_cons]
        rw [h1, h2]
      simp only [commit, if_pos hg, hr, eq_self_iff_true, if_true, hpend]
      refine ⟨?_, ?_, ?_, ?_, ?_, hs.sortedIF, ?_, ?_, ?_, ?_, ?_, ?_⟩
      · simp only [jrows, List.map_append, List.map_cons, List.map_nil]
        have hids := hs.ids
        simp only [jrows] at hids
        rw [hids, hid]
        have := @List.range'_concat 1 1 s.commitCount
        simp only [Nat.one_mul] at this
        rw [this, Nat.add_comm 1 s.commitCount]
      · simp only [jrows, List.map_append, List.map_cons, List.map_nil]
        have hch := hs.chain
        simp only [jrows] at hch
        refine hashChain_append_one hch ?_
        rw [hsha, hs.lastH]
        rfl
      · simp only [jrows, List.map_append, List.map_cons, List.map_nil]
        rw [← hhash, lastHashOf]
        rw [lastHashD_append_one]
      · intro c hc
        rcases List.mem_append.mp hc with hc | hc
        · exact Nat.le_succ_of_le (hs.committedLe c hc)
        · simp only [List.mem_singleton] at hc
          subst hc
          show row.id ≤ s.commitCount + 1
          omega
      · intro c hc
        rcases List.mem_append.mp hc with hc | hc
        · exact hs.committedIn c hc
        · simp only [List.mem_singleton] at hc
          subst hc
          refine ⟨row, ?_, rfl⟩
          show row ∈ s.inFlight
          rw [hif]
          exact List.mem_append_right _ (by simp)
      · have hdrop : n0 ≤ (s.journal.map Prod.snd).length := by
          have h1 : (s.journal.map Prod.snd).length = s.commitCount := by
            simpa [jrows] using hjlen
          have h2 := hs.baseLe
          omega
        simp only [committedPending, jrows, List.map_append, List.map_cons, List.map_nil]
        show s.drainHistory.flatten ++
            List.filter (fun r => decide (r.id ∈ s.committedIDs ++ [row.id])) s.inFlight =
          List.drop n0 (List.map Prod.snd s.journal ++ [row])
        rw [List.drop_append_of_le_length hdrop, hfilter_new, ← List.append_assoc]
        have hO := hOld
        simp only [jrows] at hO
        rw [hO]
      · exact Nat.le_succ_of_le hs.baseLe
      · intro j
        rcases eq_or_ne j i with rfl | hj
        · simp [DBState.updFacade]
        · simp only [DBState.updFacade, Function.update_noteq hj]
          have hmf : (s.facades j).mutexLocked = false := by
            have := mt (hs.lockFacade j).1 (fun hh => hj (Option.some.inj (hl.symm.trans hh)).symm)
            simpa using this
          simp [hmf]
      · intro j hcontra
        exact absurd hcontra (by simp)
      · intro j hm
        rcases eq_or_ne j i with rfl | hj
        · simp [DBState.updFacade]
        · simp only [DBState.updFacade, Function.update_noteq hj] at hm ⊢
          exact hs.unlockedPending j hm
      · intro _ r hr'
        have hr2 : r ∈ s.inFlight := hr'
        rw [hif] at hr2
        show r.id ∈ s.committedIDs ++ [row.id]
        rcases List.mem_append.mp hr2 with hr3 | hr3
        · exact List.mem_append_left _ (hprec r hr3)
        · simp only [List.mem_singleton] at hr3
          subst hr3
          exact List.mem_append_right _ (by simp)
    · simpa [commit, if_pos hg, hr] using hs
  · simpa [commit, hg] using hs

theorem inv_rollback {sha1 : String → String} {n0 : Nat} {s : DBState}
    (hs : Inv sha1 n0 s) (i : Nat) : Inv sha1 n0 (rollback i s) := by
  by_cases hm : (s.facades i).mutexLocked = true
  · have hl : s.lockHolder = some i := (hs.lockFacade i).1 hm
    obtain ⟨hin, row, hpend, hid, hquery, hhash, hsha, pre, hif, hprec⟩ := hs.lockedState i hl
    have hpre_ne : ∀ r ∈ pre, r.id ≠ s.commitCount + 1 := fun r hr => by
      have := hs.committedLe _ (hprec r hr)
      omega
    have hfilt : s.inFlight.filter (fun r => decide (r.id ≠ s.commitCount + 1)) = pre := by
      rw [hif, List.filter_append]
      have h1 : pre.filter (fun r => decide (r.id ≠ s.commitCount + 1)) = pre :=
        List.filter_eq_self.mpr (fun a ha => by simp [hpre_ne a ha])
      have h2 : List.filter (fun r => decide (r.id ≠ s.commitCount + 1)) [row] = [] := by
        simp [List.filter_cons, hid]
      rw [h1, h2, List.append_nil]
    have hOld : s.drainHistory.flatten ++ pre = (jrows s).drop n0 := by
      have hd := hs.drained
      rw [committedPending, hif, List.filter_append] at hd
      have h1 : pre.filter (fun r => decide (r.id ∈ s.committedIDs)) = pre :=
        List.filter_eq_self.mpr (fun a ha => by simpa using hprec a ha)
      have hnotin : s.commitCount + 1 ∉ s.committedIDs := fun h =>
        absurd (hs.committedLe _ h) (by omega)
      have h2 : List.filter (fun r => decide (r.id ∈ s.committedIDs)) [row] = [] := by
        simp [List.filter_cons, hid, hnotin]
      rw [h1, h2, List.append_nil] at hd
      exact hd
    simp only [rollback, if_pos hm]
    refine ⟨hs.ids, hs.chain, hs.lastH, hs.committedLe, ?_, ?_, ?_, hs.baseLe, ?_, ?_, ?_, ?_⟩
    · intro c hc
      obtain ⟨r, hr, hrc⟩ := hs.committedIn c hc
      refine ⟨r, ?_, hrc⟩
      show r ∈ s.inFlight.filter (fun r => decide (r.id ≠ s.commitCount + 1))
      rw [hfilt]
      rw [hif] at hr
      rcases List.mem_append.mp hr with hr | hr
      · exact hr
      · simp only [List.mem_singleton] at hr
        subst hr
        have := hs.committedLe _ hc
        omega
    · exact hs.sortedIF.sublist (List.filter_sublist _)
    · show s.drainHistory.flatten ++
        List.filter (fun r => decide (r.id ∈ s.committedIDs))
          (s.inFlight.filter (fun r => decide (r.id ≠ s.commitCount + 1))) =
        (jrows s).drop n0
      rw [hfilt]
      rw [List.filter_eq_self.mpr (fun a ha => by simpa using hprec a ha)]
      exact hOld
    · intro j
      rcases eq_or_ne j i with rfl | hj
      · simp [DBState.updFacade]
      · simp only [DBState.updFacade, Function.update_noteq hj]
        have hmf : (s.facades j).mutexLocked = false := by
          have := mt (hs.lockFacade j).1 (fun hh => hj (Option.some.inj (hl.symm.trans hh)).symm)
          simpa using this
        simp [hmf]
    · intro j hcontra
      exact Option.noConfusion hcontra
    · intro j hmj
      rcases eq_or_ne j i with rfl | hj
      · simp [DBState.updFacade]
      · simp only [DBState.updFacade, Function.update_noteq hj] at hmj ⊢
        exact hs.unlockedPending j hmj
    · intro _ r hr
      have hr2 : r ∈ s.inFlight.filter (fun r => decide (r.id ≠ s.commitCount + 1)) := hr
      rw [hfilt] at hr2
      show r.id ∈ s.committedIDs
      exact hprec r hr2
  · have hni : s.lockHolder ≠ some i := mt (hs.lockFacade i).2 hm
    simp only [rollback, if_neg hm]
    refine ⟨hs.ids, hs.chain, hs.lastH, hs.committedLe, hs.committedIn, hs.sortedIF,
      hs.drained, hs.baseLe, ?_, ?_, ?_, hs.freeCommitted⟩
    · intro j
      rcases eq_or_ne j i with rfl | hj
      · simp [DBState.updFacade, hni]
      · simpa [DBState.updFacade, Function.update_noteq hj] using hs.lockFacade j
    · intro j hj'
      rcases eq_or_ne j i with rfl | hj
      · exact absurd hj' hni
      · simpa [DBState.updFacade, Function.update_noteq hj] using hs.lockedState j hj'
    · intro j hmj
      rcases eq_or_ne j i with rfl | hj
      · simp [DBState.updFacade]
      · simp only [DBState.updFacade, Function.update_noteq hj] at hmj ⊢
        exact hs.unlockedPending j hmj

theorem inv_drain {sha1 : String → String} {n0 : Nat} {s : DBState}
    (hs : Inv sha1 n0 s) : Inv sha1 n0 (getCommittedTransactions s).2 := by
  by_cases hl : s.lockHolder = none
  · have hfc : ∀ r ∈ s.inFlight, r.id ∈ s.committedIDs := hs.freeCommitted hl
    have hIF : s.inFlight.filter (fun r => decide (r.id ∉ s.committedIDs)) = [] :=
      List.filter_eq_nil_iff.mpr (fun a ha => by simp [hfc a ha])
    simp only [getCommittedTransactions, if_pos hl]
    refine ⟨hs.ids, hs.chain, hs.lastH, ?_, ?_, ?_, ?_, hs.baseLe, hs.lockFacade, ?_, ?_, ?_⟩
    · intro c hc
      exact hs.committedLe c (List.mem_of_mem_filter hc)
    · intro c hc
      exfalso
      have hc1 : c ∈ s.committedIDs := List.mem_of_mem_filter hc
      have hc2 := (List.mem_filter.mp hc).2
      simp only [decide_eq_true_eq] at hc2
      obtain ⟨r, hr, hrc⟩ := hs.committedIn c hc1
      refine hc2 (List.mem_map.mpr ⟨r, ?_, hrc⟩)
      exact List.mem_filter.mpr ⟨hr, by simp [hrc ▸ hc1]⟩
    · exact hs.sortedIF.sublist (List.filter_sublist _)
    · show (s.drainHistory ++
          [s.inFlight.filter (fun r => decide (r.id ∈ s.committedIDs))]).flatten ++
          List.filter (fun r => decide (r.id ∈
            s.committedIDs.filter (fun c => decide (c ∉
              (s.inFlight.filter (fun r => decide (r.id ∈ s.committedIDs))).map Row.id))))
            (s.inFlight.filter (fun r => decide (r.id ∉ s.committedIDs))) =
        (jrows s).drop n0
      rw [hIF, List.flatten_append]
      simpa [committedPending] using hs.drained
    · intro j hj'
      rw [hl] at hj'
      exact Option.noConfusion hj'
    · intro j hmj
      exact hs.unlockedPending j hmj
    · intro _ r hr
      have hr2 : r ∈ s.inFlight.filter (fun r => decide (r.id ∉ s.committedIDs)) := hr
      rw [hIF] at hr2
      exact absurd hr2 (List.not_mem_nil r)
  · simpa [getCommittedTransactions, hl] using hs

theorem inv_step {sha1 : String → String} {n0 : Nat} {s : DBState}
    (hs : Inv sha1 n0 s) (op : Op) : Inv sha1 n0 (step sha1 op s) := by
  cases op with
  | beginTx i => exact inv_beginTransaction hs i
  | writeQ i q => exact inv_write hs i q
  | prepareTx i => exact inv_prepare hs i
  | commitTx i r => exact inv_commit hs i r
  | rollbackTx i => exact inv_rollback hs i
  | drain => exact inv_drain hs

theorem inv_run {sha1 : String → String} {n0 : Nat} :
    ∀ (ops : List Op) (s : DBState), Inv sha1 n0 s → Inv sha1 n0 (run sha1 ops s) := by
  intro ops
  induction ops with
  | nil => intro s hs; exact hs
  | cons op rest ih => intro s hs; exact ih _ (inv_step hs op)

theorem inv_init {sha1 : String → String} {shards : Nat → String} {j0 : List (String × Row)}
    (hwf : WFJournal sha1 (j0.map Prod.snd)) :
    Inv sha1 (j0.map Prod.snd).length (initState shards j0) := by
  have hcc : (initState shards j0).commitCount = (j0.map Prod.snd).length := by
    show maxJournalId (j0.map Prod.snd) = (j0.map Prod.snd).length
    rw [maxJournalId, hwf.1, foldr_max_range']
  refine ⟨?_, hwf.2, rfl, ?_, ?_, ?_, ?_, le_of_eq hcc.symm, ?_, ?_, ?_, ?_⟩
  · show (j0.map Prod.snd).map Row.id = List.range' 1 (maxJournalId (j0.map Prod.snd))
    rw [maxJournalId, hwf.1, foldr_max_range']
  · intro c hc
    exact absurd hc (List.not_mem_nil c)
  · intro c hc
    exact absurd hc (List.not_mem_nil c)
  · exact List.Pairwise.nil
  · show List.flatten [] ++ List.filter _ [] = (j0.map Prod.snd).drop (j0.map Prod.snd).length
    rw [List.drop_length]
    rfl
  · intro i
    simp [initState]
  · intro i hcontra
    exact Option.noConfusion hcontra
  · intro i _
    rfl
  · intro _ r hr
    exact absurd hr (List.not_mem_nil r)

theorem inv_reachable {sha1 : String → String} {shards : Nat → String}
    {j0 : List (String × Row)} {s : DBState} (hwf : WFJournal sha1 (j0.map Prod.snd))
    (hr : Reachable sha1 shards j0 s) : Inv sha1 (j0.map Prod.snd).length s := by
  obtain ⟨ops, rfl⟩ := hr
  exact inv_run ops _ (inv_init hwf)

theorem pairwise_decomp {α : Type} {R : α → α → Prop} {pre mid rest : List α} (a b : α)
    {l : List α} (hp : l.Pairwise R) (hl : l = pre ++ a :: (mid ++ b :: rest)) : R a b := by
  subst hl
  have h2 := (List.pairwise_append.mp hp).2.1
  exact (List.pairwise_cons.mp h2).1 b (by simp)

theorem jrows_length {sha1 : String → String} {n0 : Nat} {s : DBState} (hs : Inv sha1 n0 s) :
    (jrows s).length = s.commitCount := by
  have := congrArg List.length hs.ids
  simpa using this

/-! ### The claims -/

/-- C1: for every k ≥ 1 the hash recorded in journal row k equals
`sha1 (hash of row (k-1) ++ query of row k)` — with the empty string standing in
front of row 1 — and recomputing the chain from the journal's queries reproduces
every stored hash. Row k is addressed by decomposing the journal as
`pre ++ r :: rest` with `|pre| = k - 1`, so `lastHashOf pre` is the hash after
commit k-1 (empty for k = 1). -/
theorem C1_hash_chain (sha1 : String → String) (shards : Nat → String)
    (j0 : List (String × Row)) (s : DBState) (hwf : WFJournal sha1 (j0.map Prod.snd))
    (hr : Reachable sha1 shards j0 s) :
    (∀ pre r rest, jrows s = pre ++ r :: rest →
      r.hash = sha1 (lastHashOf pre ++ r.query)) ∧
    recomputeHashes sha1 "" ((jrows s).map Row.query) = (jrows s).map Row.hash := by
  have hs := inv_reachable hwf hr
  constructor
  · intro pre r rest hdec
    simpa [lastHashOf] using hashChain_decomp hs.chain hdec
  · exact recompute_eq_of_chain hs.chain

/-- C2: commit ids of the journal are exactly `1, 2, ..., commitCount` in commit
order (a gap-free contiguous prefix of the naturals), so of two committed
transactions the later has the strictly larger id; the counter is loaded at process
start as the maximum id over all journal shards; and every successful `prepare`
claims the next value `commitCount + 1` while taking the commit lock. -/
theorem C2_monotonic_ids (sha1 : String → String) (shards : Nat → String)
    (j0 : List (String × Row)) (s : DBState) (hwf : WFJournal sha1 (j0.map Prod.snd))
    (hr : Reachable sha1 shards j0 s) :
    ((jrows s).map Row.id = List.range' 1 s.commitCount) ∧
    (∀ pre a mid b rest, jrows s = pre ++ a :: (mid ++ b :: rest) → a.id < b.id) ∧
    ((initState shards j0).commitCount = maxJournalId (j0.map Prod.snd)) ∧
    (∀ i, (prepare sha1 i s).1 = true →
      (prepare sha1 i s).2.lockHolder = some i ∧
      ∃ row, ((prepare sha1 i s).2.facades i).pendingRow = some row ∧
        row.id = s.commitCount + 1) := by
  have hs := inv_reachable hwf hr
  refine ⟨hs.ids, ?_, rfl, ?_⟩
  · intro pre a mid b rest hdec
    have hpw : ((jrows s).map Row.id).Pairwise (· < ·) := by
      rw [hs.ids]
      exact List.pairwise_lt_range' 1 s.commitCount
    have hpw2 : (jrows s).Pairwise (fun x y => x.id < y.id) := List.pairwise_map.mp hpw
    exact pairwise_decomp a b hpw2 hdec
  · intro i hsucc
    by_cases hg : (s.facades i).insideTransaction = true ∧ (s.facades i).mutexLocked = false ∧
        s.lockHolder = none
    · constructor
      · simp [prepare, if_pos hg]
      · refine ⟨⟨s.commitCount + 1, (s.facades i).uncommittedQuery,
          sha1 (s.lastCommittedHash ++ (s.facades i).uncommittedQuery)⟩, ?_, rfl⟩
        simp [prepare, if_pos hg, DBState.updFacade]
    · simp only [prepare, if_neg hg] at hsucc
      exact Bool.noConfusion hsucc

/-- C3: with the commit lock free, the drain atomically removes and returns exactly
the in-flight entries whose commit ids are in the committed-transactions set (all of
them actually committed, never merely prepared-and-rolled-back ones, whose entries
are gone by rollback time and whose ids never enter the set); the returned entries
are in strictly ascending id order; and the concatenation of all drain outputs so
far is exactly this process's committed transactions in commit order — each exactly
once. -/
theorem C3_drain_exact (sha1 : String → String) (shards : Nat → String)
    (j0 : List (String × Row)) (s : DBState) (hwf : WFJournal sha1 (j0.map Prod.snd))
    (hr : Reachable sha1 shards j0 s) (hfree : s.lockHolder = none) :
    (∀ r, r ∈ (getCommittedTransactions s).1 ↔ r ∈ s.inFlight ∧ r.id ∈ s.committedIDs) ∧
    (∀ r, r ∈ (getCommittedTransactions s).2.inFlight ↔
      r ∈ s.inFlight ∧ r.id ∉ s.committedIDs) ∧
    ((getCommittedTransactions s).1).Pairwise (fun a b => a.id < b.id) ∧
    (∀ r ∈ (getCommittedTransactions s).1, r.id ≤ s.commitCount) ∧
    (getCommittedTransactions s).2.drainHistory.flatten =
      (jrows (getCommittedTransactions s).2).drop (j0.map Prod.snd).length := by
  have hs := inv_reachable hwf hr
  simp only [getCommittedTransactions, if_pos hfree]
  refine ⟨?_, ?_, ?_, ?_, ?_⟩
  · intro r
    simp [List.mem_filter]
  · intro r
    simp [List.mem_filter]
  · exact hs.sortedIF.sublist (List.filter_sublist _)
  · intro r hrm
    have := (List.mem_filter.mp hrm).2
    simp only [decide_eq_true_eq] at this
    exact hs.committedLe _ this
  · show ((s.drainHistory ++ [_]).flatten) = (jrows s).drop (j0.map Prod.snd).length
    rw [List.flatten_append]
    simpa [committedPending] using hs.drained

/-- C4: a nonzero engine code from the storage engine's `COMMIT` is returned
unchanged with the whole state untouched — the in-flight entry stays, the facade is
still inside its transaction, and the commit lock is not released; moreover the only
operations that can take this facade's `_mutexLocked` from true to false are its own
successful `commit` or its own `rollback`. -/
theorem C4_commit_busy (sha1 : String → String) (shards : Nat → String)
    (j0 : List (String × Row)) (s : DBState) (hwf : WFJournal sha1 (j0.map Prod.snd))
    (hr : Reachable sha1 shards j0 s) (i code : Nat)
    (hin : (s.facades i).insideTransaction = true)
    (hlk : (s.facades i).mutexLocked = true) (hcode : code ≠ 0) :
    commit i code s = (code, s) ∧
    ∀ op, ((step sha1 op s).facades i).mutexLocked = false →
      op = Op.commitTx i 0 ∨ op = Op.rollbackTx i := by
  have hs := inv_reachable hwf hr
  have hl : s.lockHolder = some i := (hs.lockFacade i).1 hlk
  have hother : ∀ j, j ≠ i → (s.facades j).mutexLocked = false := by
    intro j hj
    have := mt (hs.lockFacade j).1 (fun hh => hj (Option.some.inj (hl.symm.trans hh)).symm)
    simpa using this
  constructor
  · simp [commit, hin, hlk, hcode]
  · intro op hop
    cases op with
    | beginTx j =>
      exfalso
      rcases eq_or_ne j i with rfl | hj
      · simp [step, beginTransaction, hin, hlk] at hop
      · by_cases hbg : (s.facades j).insideTransaction = true
        · simp [step, beginTransaction, hbg, hlk] at hop
        · simp [step, beginTransaction, hbg, DBState.updFacade,
            Function.update_noteq (Ne.symm hj), hlk] at hop
    | writeQ j q =>
      exfalso
      rcases eq_or_ne j i with rfl | hj
      · simp [step, write, hlk] at hop
      · by_cases hw : (s.facades j).insideTransaction = true ∧
            (s.facades j).mutexLocked = false ∧ (s.facades j).whitelist = none
        · simp [step, write, hw, DBState.updFacade,
            Function.update_noteq (Ne.symm hj), hlk] at hop
        · simp [step, write, hw, hlk] at hop
    | prepareTx j =>
      exfalso
      rcases eq_or_ne j i with rfl | hj
      · simp [step, prepare, hlk] at hop
      · simp [step, prepare, hl, hlk] at hop
    | commitTx j r =>
      rcases eq_or_ne j i with rfl | hj
      · by_cases hr0 : r = 0
        · subst hr0
          exact Or.inl rfl
        · exfalso
          simp [step, commit, hin, hlk, hr0] at hop
      · exfalso
        simp [step, commit, hother j hj, hlk] at hop
    | rollbackTx j =>
      rcases eq_or_ne j i with rfl | hj
      · exact Or.inr rfl
      · exfalso
        simp [step, rollback, hother j hj, DBState.updFacade,
          Function.update_noteq (Ne.symm hj), hlk] at hop
    | drain =>
      exfalso
      simp [step, getCommittedTransactions, hl, hlk] at hop

/-- C5: after `rollback`, the facade is outside any transaction with empty
uncommitted query and hash and no pending journal insert; the commit lock is
released (with the in-flight entry at the tentative id `commitCount + 1` removed)
iff this facade held it, and is left alone otherwise; and no journal row carries the
tentative id. `rollback` is total, so it always succeeds. -/
theorem C5_rollback_purity (sha1 : String → String) (shards : Nat → String)
    (j0 : List (String × Row)) (s : DBState) (hwf : WFJournal sha1 (j0.map Prod.snd))
    (hr : Reachable sha1 shards j0 s) (i : Nat) :
    ((rollback i s).facades i).insideTransaction = false ∧
    ((rollback i s).facades i).uncommittedQuery = "" ∧
    ((rollback i s).facades i).uncommittedHash = "" ∧
    ((rollback i s).facades i).mutexLocked = false ∧
    ((rollback i s).facades i).pendingRow = none ∧
    ((s.facades i).mutexLocked = true → (rollback i s).lockHolder = none ∧
      ∀ r ∈ (rollback i s).inFlight, r.id ≠ s.commitCount + 1) ∧
    ((s.facades i).mutexLocked = false →
      (rollback i s).inFlight = s.inFlight ∧ (rollback i s).lockHolder = s.lockHolder) ∧
    (∀ r ∈ jrows (rollback i s), r.id ≠ s.commitCount + 1) := by
  have hs := inv_reachable hwf hr
  have hjr : jrows (rollback i s) = jrows s := by
    by_cases hm : (s.facades i).mutexLocked = true
    · simp [rollback, hm, jrows, DBState.updFacade]
    · simp [rollback, hm, jrows, DBState.updFacade]
  refine ⟨by simp [rollback, DBState.updFacade], by simp [rollback, DBState.updFacade],
    by simp [rollback, DBState.updFacade], by simp [rollback, DBState.updFacade],
    by simp [rollback, DBState.updFacade], ?_, ?_, ?_⟩
  · intro hm
    constructor
    · simp [rollback, hm, DBState.updFacade]
    · intro r hrm
      have : r ∈ s.inFlight.filter (fun r => decide (r.id ≠ s.commitCount + 1)) := by
        simpa [rollback, hm, DBState.updFacade] using hrm
      have := (List.mem_filter.mp this).2
      simpa using this
  · intro hm
    constructor
    · simp [rollback, hm, DBState.updFacade]
    · simp [rollback, hm, DBState.updFacade]
  · intro r hrm
    rw [hjr] at hrm
    have hmem : r.id ∈ (jrows s).map Row.id := List.mem_map_of_mem Row.id hrm
    rw [hs.ids] at hmem
    have := List.mem_range'_1.mp hmem
    omega

/-- C6: with a whitelist installed every `write` fails (its statements perform
non-read actions and the authorizer denies every non-read action under a whitelist),
reads of (table, column) pairs listed in the whitelist are allowed, reads of
non-listed pairs are denied, and with no whitelist the authorizer allows every
action. -/
theorem C6_whitelist :
    (∀ (s : DBState) (i : Nat) (q : String) (m : List (String × List String)),
      (s.facades i).whitelist = some m → write i q s = (false, s)) ∧
    (∀ m a, IsWriteAction a → authorize (some m) a = AuthResult.deny) ∧
    (∀ m t c, listedFor m t c →
      authorize (some m) (SQLAction.readCol t c) = AuthResult.allow) ∧
    (∀ m t c, ¬ listedFor m t c →
      authorize (some m) (SQLAction.readCol t c) = AuthResult.deny) ∧
    (∀ a, authorize none a = AuthResult.allow) := by
  refine ⟨?_, ?_, ?_, ?_, ?_⟩
  · intro s i q m hwl
    simp [write, hwl]
  · intro m a ha
    cases a with
    | readCol t c => exact ha.elim
    | insertRow t => rfl
    | updateCol t c => rfl
    | deleteRow t => rfl
    | attachDB => rfl
    | pragmaStmt => rfl
    | sideEffectFunction f => rfl
  · intro m t c hlst
    simp [authorize, if_pos hlst]
  · intro m t c hlst
    simp [authorize, if_neg hlst]
  · intro a
    rfl

theorem foldl_sep_eq_interleave (sep : String) :
    ∀ (fs : List String) (f : String),
      fs.foldl (fun acc x => acc ++ sep ++ x) f = interleave sep (f :: fs) := by
  intro fs
  induction fs with
  | nil => intro f; rfl
  | cons g gs ih =>
    intro f
    rw [List.foldl_cons, ih (f ++ sep ++ g)]
    cases gs with
    | nil => rfl
    | cons g2 gs2 =>
      show interleave sep ((f ++ sep ++ g) :: g2 :: gs2) =
        interleave sep (f :: g :: g2 :: gs2)
      simp [interleave, String.append_assoc]

theorem joinLoop_eq_interleave (sep : String) (l : List String) :
    joinLoop sep l = interleave sep l := by
  cases l with
  | nil => rfl
  | cons f fs => exact foldl_sep_eq_interleave sep fs f

/-- C7: the union query builder produces, for each journal shard name `S`, the
fragments interleaved with `S` between consecutive fragments (`f_0 S f_1 S ... f_m`,
blank-separated), appends `S` at the end iff `append` is set, and joins the
per-shard strings with `UNION`. -/
theorem C7_union_query (allJournalNames queryParts : List String) (append : Bool) :
    _getJournalQuery allJournalNames queryParts append =
      interleave " UNION " (allJournalNames.map (fun S =>
        interleave (" " ++ S ++ " ") queryParts ++
          (if append then " " ++ S else ""))) := by
  simp only [_getJournalQuery, joinLoop_eq_interleave]

/-- C8: the journal table name is `journal` for id `-1`, and for a nonnegative id it
is `journal` followed by the decimal digits of the id left-padded with `'0'` to at
least four digits (padding `4 - |digits|` zeros, total width `max 4 |digits|`). -/
theorem C8_journal_table_name :
    _getJournalTableName (-1) = "journal" ∧
    ∀ n : Nat,
      _getJournalTableName (Int.ofNat n) =
        "journal" ++ String.mk (List.replicate (4 - (Nat.repr n).length) '0') ++
          Nat.repr n ∧
      (String.mk (List.replicate (4 - (Nat.repr n).length) '0') ++ Nat.repr n).length =
        max 4 (Nat.repr n).length ∧
      ∀ c ∈ List.replicate (4 - (Nat.repr n).length) '0', c = '0' := by
  constructor
  · rfl
  · intro n
    refine ⟨?_, ?_, ?_⟩
    · show (if (Int.ofNat n) < 0 then "journal"
          else "journal" ++ zeroPad 4 (Nat.repr (Int.ofNat n).toNat)) = _
      have hnn : ¬ Int.ofNat n < 0 := Int.not_lt.mpr (Int.ofNat_nonneg n)
      rw [if_neg hnn]
      show "journal" ++ zeroPad 4 (Nat.repr n) = _
      rw [zeroPad, String.append_assoc]
    · rw [String.length_append]
      have h1 : (String.mk (List.replicate (4 - (Nat.repr n).length) '0')).length =
          4 - (Nat.repr n).length := by
        show (List.replicate (4 - (Nat.repr n).length) '0').length = _
        simp
      rw [h1]
      omega
    · intro c hc
      exact List.eq_of_mem_replicate hc

/-- C9: once `prepare` has succeeded (the facade holds the commit lock), `write`
fails and the accumulated uncommitted query is left unchanged — no additional
writes are allowed in the Prepared state. -/
theorem C9_write_in_prepared (s : DBState) (i : Nat) (q : String)
    (hlk : (s.facades i).mutexLocked = true) :
    write i q s = (false, s) ∧
    ((write i q s).2.facades i).uncommittedQuery = (s.facades i).uncommittedQuery := by
  have h1 : write i q s = (false, s) := by simp [write, hlk]
  exact ⟨h1, by rw [h1]⟩

/-- C10: whenever no facade is inside a transaction, reading the maximum commit id
directly from the database across all journal shards (`_getCommitCount`) returns the
same value as the process-global atomic counter (`getCommitCount`). -/
theorem C10_commit_count (sha1 : String → String) (shards : Nat → String)
    (j0 : List (String × Row)) (s : DBState) (hwf : WFJournal sha1 (j0.map Prod.snd))
    (hr : Reachable sha1 shards j0 s) (i : Nat)
    (hno : ∀ j, (s.facades j).insideTransaction = false) :
    _getCommitCount i s = getCommitCount s := by
  have hs := inv_reachable hwf hr
  have hm : (s.facades i).mutexLocked = false := by
    cases h : (s.facades i).mutexLocked with
    | false => rfl
    | true =>
      have hl := (hs.lockFacade i).1 h
      have hcontra := (hs.lockedState i hl).1
      rw [hno i] at hcontra
      exact Bool.noConfusion hcontra
  have hpend := hs.unlockedPending i hm
  show maxJournalId (jrows s ++ ((s.facades i).pendingRow).toList) = s.commitCount
  rw [hpend]
  show maxJournalId (jrows s ++ []) = s.commitCount
  rw [List.append_nil, maxJournalId, hs.ids, foldr_max_range']

/-! ### Concrete executions exercising the theorems -/

/-- A concrete stand-in for SHA-1 used to run the model on closed inputs (the
theorems hold for every hash function). -/
def tagHash (t : String) : String := "#" ++ t ++ "#"

/-- All demo facades write to the default shard. -/
def demoShards : Nat → String := fun _ => "journal"

/-- Two complete transactions by facade 0. -/
def demoOps : List Op :=
  [Op.beginTx 0, Op.writeQ 0 "INSERT INTO t VALUES(1);", Op.prepareTx 0, Op.commitTx 0 0,
   Op.beginTx 0, Op.writeQ 0 "INSERT INTO t VALUES(2);", Op.prepareTx 0, Op.commitTx 0 0]

def demoState : DBState := run tagHash demoOps (initState demoShards [])

/-- A transaction stopped right after `prepare`. -/
def demoPrepOps : List Op :=
  [Op.beginTx 0, Op.writeQ 0 "INSERT INTO t VALUES(3);", Op.prepareTx 0]

def demoPrep : DBState := run tagHash demoPrepOps (initState demoShards [])

/-- A one-row journal found on disk at process start. -/
def demoJ0 : List (String × Row) :=
  [("journal", ⟨1, "INSERT INTO t VALUES(1);", tagHash "INSERT INTO t VALUES(1);"⟩)]

def demoWhitelist : List (String × List String) := [("t", ["a"])]

/-- Witness for C1 at the two-commit execution. -/
theorem C1_hash_chain_witness :
    recomputeHashes tagHash "" ((jrows demoState).map Row.query) =
      (jrows demoState).map Row.hash :=
  (C1_hash_chain tagHash demoShards [] demoState ⟨rfl, trivial⟩ ⟨demoOps, rfl⟩).2

/-- Witness for C2 at the two-commit execution. -/
theorem C2_monotonic_ids_witness :
    (jrows demoState).map Row.id = List.range' 1 demoState.commitCount :=
  (C2_monotonic_ids tagHash demoShards [] demoState ⟨rfl, trivial⟩ ⟨demoOps, rfl⟩).1

/-- Witness for C3: after draining the two-commit execution, the drain history is
exactly the journal of this process's commits. -/
theorem C3_drain_exact_witness :
    (getCommittedTransactions demoState).2.drainHistory.flatten =
      (jrows (getCommittedTransactions demoState).2).drop
        ((([] : List (String × Row)).map Prod.snd).length) :=
  (C3_drain_exact tagHash demoShards [] demoState ⟨rfl, trivial⟩ ⟨demoOps, rfl⟩ rfl).2.2.2.2

/-- Witness for C4: a busy engine code (5) is returned unchanged with no state
change at the prepared execution. -/
theorem C4_commit_busy_witness : commit 0 5 demoPrep = (5, demoPrep) :=
  (C4_commit_busy tagHash demoShards [] demoPrep ⟨rfl, trivial⟩ ⟨demoPrepOps, rfl⟩ 0 5 rfl rfl
    (by decide)).1

/-- Witness for C5: rolling back the prepared execution leaves the facade outside
any transaction. -/
theorem C5_rollback_purity_witness :
    ((rollback 0 demoPrep).facades 0).insideTransaction = false :=
  (C5_rollback_purity tagHash demoShards [] demoPrep ⟨rfl, trivial⟩ ⟨demoPrepOps, rfl⟩ 0).1

/-- Witness for C6 at a concrete whitelist. -/
theorem C6_whitelist_witness :
    authorize (some demoWhitelist) (SQLAction.readCol "t" "a") = AuthResult.allow ∧
    authorize (some demoWhitelist) (SQLAction.readCol "t" "b") = AuthResult.deny ∧
    authorize (some demoWhitelist) (SQLAction.insertRow "t") = AuthResult.deny :=
  ⟨C6_whitelist.2.2.1 demoWhitelist "t" "a" (by decide),
   C6_whitelist.2.2.2.1 demoWhitelist "t" "b" (by decide),
   C6_whitelist.2.1 demoWhitelist (SQLAction.insertRow "t") trivial⟩

/-- Witness for C7 at two shards and two fragments. -/
theorem C7_union_query_witness :
    _getJournalQuery ["journal", "journal0000"] ["SELECT * FROM", "WHERE id > 1"] false =
      interleave " UNION " (["journal", "journal0000"].map (fun S =>
        interleave (" " ++ S ++ " ") ["SELECT * FROM", "WHERE id > 1"] ++
          (if false then " " ++ S else ""))) :=
  C7_union_query ["journal", "journal0000"] ["SELECT * FROM", "WHERE id > 1"] false

/-- Witness for C8 at ids `-1` and `7`. -/
theorem C8_journal_table_name_witness :
    _getJournalTableName (-1) = "journal" ∧
    _getJournalTableName (Int.ofNat 7) =
      "journal" ++ String.mk (List.replicate (4 - (Nat.repr 7).length) '0') ++ Nat.repr 7 :=
  ⟨C8_journal_table_name.1, (C8_journal_table_name.2 7).1⟩

/-- Witness for C9: a write in the prepared execution fails and changes nothing. -/
theorem C9_write_in_prepared_witness :
    write 0 "INSERT INTO t VALUES(9);" demoPrep = (false, demoPrep) :=
  (C9_write_in_prepared demoPrep 0 "INSERT INTO t VALUES(9);" rfl).1

/-- Witness for C10 at process start over a one-row journal. -/
theorem C10_commit_count_witness :
    _getCommitCount 0 (initState demoShards demoJ0) =
      getCommitCount (initState demoShards demoJ0) :=
  C10_commit_count tagHash demoShards demoJ0 (initState demoShards demoJ0)
    ⟨rfl, rfl, trivial⟩ ⟨[], rfl⟩ 0 (fun _ => rfl)

end Bedrock
